import Mathlib

/-!
Verification development for the patchbay archiving service.

The Go source is shallowly embedded below. External collaborators
(the SQL store, the content store, JSON marshalling of structured values,
sha256 and the multihash encoder) are passed in as explicit function
parameters; everything the repository itself computes is translated
directly into executable Lean definitions.
-/

set_option autoImplicit false

namespace Patchbay

/-! ## Time model (Go `time.Time`)

A Go `time.Time` is an absolute instant plus a location. We model the
instant as nanoseconds since the epoch and the location as a zone offset
in seconds. `time.Time.Round` rounds the instant to the nearest multiple
of the duration, halves away from zero, and keeps the location;
`time.Time.In(time.UTC)` changes only the location. -/

structure GoTime where
  nanos : Int
  offset : Int
  deriving DecidableEq, Repr

def nsPerSec : Int := 1000000000

/-- Go `t.Round(d)` for positive `d`: round to the nearest multiple of `d`,
halves rounding up (away from zero for times after the epoch); the location
is kept unchanged. -/
def timeRound (t : GoTime) (d : Int) : GoTime :=
  let r := t.nanos % d
  if r + r < d then { t with nanos := t.nanos - r }
  else { t with nanos := t.nanos + (d - r) }

/-- Go `t.In(time.UTC)`: same instant, location set to UTC. -/
def timeInUTC (t : GoTime) : GoTime :=
  { t with offset := 0 }

/-- Go's zero `time.Time` value. -/
def goZeroTime : GoTime := ⟨0, 0⟩

/-! ## JSON values

`map[string]interface{}` payloads are modelled as association lists of
JSON values (Go maps have unique keys). -/

inductive Jsonv where
  | null
  | boolean (b : Bool)
  | num (n : Int)
  | str (s : String)
  | arr (xs : List Jsonv)
  | obj (fields : List (String × Jsonv))

/-- Go `m.Meta["title"].(string)`: the type assertion succeeds exactly when
the key is present and its value is a string. -/
def metaTitle (meta : List (String × Jsonv)) : Option String :=
  match meta.lookup "title" with
  | some (.str s) => some s
  | _ => none

/-! ## Metadata records (src/metadata.go) -/

structure Metadata where
  Hash : String
  Timestamp : GoTime
  KeyId : String
  Subject : String
  Prev : String
  Meta : List (String × Jsonv)

/-- The anonymous struct built by `Metadata.HashableBytes`: exactly the five
fields {timestamp, keyId, subject, prev, meta}, in source order. -/
structure HashStruct where
  Timestamp : GoTime
  KeyId : String
  Subject : String
  Prev : String
  Meta : List (String × Jsonv)

/-- The row handed to `db.Exec` by `Metadata.Write`. -/
structure InsertRow where
  hash : String
  time_stamp : GoTime
  key_id : String
  subject : String
  prev : String
  meta : List Nat
  deriving DecidableEq

/-- External collaborators of the ledger: Go's `json.Marshal` on the
hashable struct and on the payload map, `sha256`, and
`multihash.EncodeName`. All are opaque to the repository's own code and
are therefore parameters of the embedding. -/
structure HashEnv where
  jsonMarshalHashable : HashStruct → Except String (List Nat)
  jsonMarshalMeta : List (String × Jsonv) → Except String (List Nat)
  sha256 : List Nat → List Nat
  multihashEncodeName : List Nat → String → Except String (List Nat)

/-- Lowercase hex digit, as in Go's `encoding/hex`. -/
def hexDigit (n : Nat) : Char :=
  if n < 10 then Char.ofNat (48 + n) else Char.ofNat (87 + n)

def hexEncodeByte (b : Nat) : String :=
  String.mk [hexDigit ((b / 16) % 16), hexDigit (b % 16)]

/-- Go `hex.EncodeToString`. -/
def hexEncodeToString (bs : List Nat) : String :=
  String.join (bs.map hexEncodeByte)

/-- Model of `CalcHash` (metadata.go): sha2-256 multihash of the bytes, hex encoded. -/
def CalcHash (env : HashEnv) (data : List Nat) : Except String String :=
  match env.multihashEncodeName (env.sha256 data) "sha2-256" with
  | .error e => .error e
  | .ok mhBuf => .ok (hexEncodeToString mhBuf)

/-- Model of `Metadata.HashableBytes`: marshal the anonymous struct holding exactly
{Timestamp, KeyId, Subject, Prev, Meta}. The `Hash` field is not part of
the struct. -/
def Metadata.HashableBytes (env : HashEnv) (m : Metadata) : Except String (List Nat) :=
  env.jsonMarshalHashable ⟨m.Timestamp, m.KeyId, m.Subject, m.Prev, m.Meta⟩

/-- Model of `Metadata.calcHash`: hash `HashableBytes` and store the result in the
`Hash` field. Returns the updated record (the Go method mutates the
receiver). -/
def Metadata.calcHash (env : HashEnv) (m : Metadata) : Except String Metadata :=
  match m.HashableBytes env with
  | .error e => .error e
  | .ok data =>
    match env.multihashEncodeName (env.sha256 data) "sha2-256" with
    | .error e => .error e
    | .ok mhBuf => .ok { m with Hash := hexEncodeToString mhBuf }

/-! ## Metadata.Write -/

/-- Observable side effects of `Metadata.Write`: the attempted ledger
insert (with the exact row passed to `db.Exec`) and the spawned
asynchronous title projection goroutine. -/
inductive WEv where
  | inserted (row : InsertRow)
  | spawnedTitleProjection (subject : String) (title : String)
  deriving DecidableEq

structure WriteResult where
  record : Metadata
  events : List WEv
  ret : Except String Unit

/-- Model of `Metadata.Write`: stamp `Timestamp := time.Now().Round(time.Second)`,
compute the hash, marshal the payload, attempt the insert (the row's
timestamp column is `m.Timestamp.In(time.UTC).Round(time.Second)`), spawn
the title projection when the payload holds a non-empty string "title",
and return the insert's error. The insert outcome is the parameter
`insertMD` applied to the row. -/
def Metadata.Write (env : HashEnv) (insertMD : InsertRow → Except String Unit)
    (now : GoTime) (m0 : Metadata) : WriteResult :=
  let m1 := { m0 with Timestamp := timeRound now nsPerSec }
  match m1.calcHash env with
  | .error e => ⟨m1, [], .error e⟩
  | .ok m2 =>
    match env.jsonMarshalMeta m2.Meta with
    | .error e => ⟨m2, [], .error e⟩
    | .ok metaBytes =>
      let row : InsertRow :=
        ⟨m2.Hash, timeRound (timeInUTC m2.Timestamp) nsPerSec, m2.KeyId, m2.Subject,
          m2.Prev, metaBytes⟩
      let err := insertMD row
      let evs :=
        match metaTitle m2.Meta with
        | some s =>
          if s ≠ "" then [WEv.inserted row, WEv.spawnedTitleProjection m2.Subject s]
          else [WEv.inserted row]
        | none => [WEv.inserted row]
      ⟨m2, evs, err⟩

/-! ## NextMetadata -/

/-- Errors surfaced by `LatestMetadata`: the distinguished `ErrNotFound`
versus any other storage failure. -/
inductive DbErr where
  | notFound
  | other (msg : String)
  deriving DecidableEq

/-- Model of `NextMetadata`: look up the chain head via `LatestMetadata` (passed in
as the query outcome `latest`); on `ErrNotFound` return a fresh record with
an empty payload; on success return a record carrying the head's `KeyId`,
`Subject` and `Meta` with `Prev` set to the head's `Hash`; any other error
is returned as-is. -/
def NextMetadata (latest : String → String → Except DbErr Metadata)
    (keyId subject : String) : Except DbErr Metadata :=
  match latest keyId subject with
  | .error .notFound =>
    .ok ⟨"", goZeroTime, keyId, subject, "", []⟩
  | .error e => .error e
  | .ok m =>
    .ok ⟨"", goZeroTime, m.KeyId, m.Subject, m.Hash, m.Meta⟩

/-! ## Wire envelopes and action dispatch (client source file)

The `ClientResponse` struct itself is declared outside the files in scope;
its field set is fixed by the spec's outbound envelope and by every use
site in scope. -/

/-- Payload carried by a response (Go `interface{}`): absent, a URL
entity, a link array, or a JSON object literal. -/
structure Url where
  Url : String
  Title : String
  Hash : String

structure Link where
  Dst : Url

inductive RespData where
  | nothing
  | url (u : Url)
  | links (ls : List Link)
  | obj (fields : List (String × Jsonv))

/-- Modelled from the spec: the outbound envelope
{Type, RequestId, Error, Schema, Data, SilentError}; its Go struct
declaration is outside the files in scope, but every field is fixed by the
spec's wire contract and by the construction sites in scope. Unset fields
default to Go zero values. -/
structure ClientResponse where
  Typ : String := ""
  RequestId : String := ""
  Error : String := ""
  Schema : String := ""
  Data : RespData := .nothing
  SilentError : Bool := false

/-- The inbound envelope parsed by `Client.HandleAction`:
{Type, RequestId, SilentError, Data} with `Data` a raw JSON fragment. -/
structure Action where
  Typ : String
  RequestId : String
  SilentError : Bool
  Data : List Nat

/-- Prefix test on character lists. -/
def leadsWith : List Char → List Char → Bool
  | [], _ => true
  | _ :: _, [] => false
  | p :: ps, c :: cs => p == c && leadsWith ps cs

/-- Go `strings.HasSuffix`. -/
def hasSuffix (s suffix : String) : Bool :=
  leadsWith suffix.data.reverse s.data.reverse

/-- One entry of the `ClientReqActions` registry: it reports its type name
(`t.Type()`) and turns a request id plus raw payload into a response
(`t.Parse(reqId, data).Exec()`). -/
structure ReqAction where
  typeName : String
  run : String → List Nat → ClientResponse

/-- Observable effects of the inbound path: a handler entry executing, a
response being enqueued on the send channel, or the connection being
closed. -/
inductive DEv where
  | executed (typeName : String)
  | sent (r : ClientResponse)
  | closedConn

/-- Assignment `res.SilentError = silentError` performed before enqueueing
a handler's response. -/
def setSilent (r : ClientResponse) (b : Bool) : ClientResponse :=
  { r with SilentError := b }

/-- Model of `Client.HandleRequestAction`: iterate over the whole `ClientReqActions`
registry; every entry whose `Type()` equals the request type parses,
executes, has its response's `SilentError` overwritten and enqueued. The
loop never breaks early. -/
def HandleRequestAction (reg : List ReqAction) (req reqId : String)
    (silentError : Bool) (data : List Nat) : List DEv :=
  match reg with
  | [] => []
  | t :: ts =>
    if t.typeName == req then
      DEv.executed t.typeName ::
        DEv.sent (setSilent (t.run reqId data) silentError) ::
          HandleRequestAction ts req reqId silentError data
    else
      HandleRequestAction ts req reqId silentError data

/-- Model of `Client.HandleAction`: unmarshal the envelope (outcome given by the
external `parse` function); on failure enqueue one PARSE_ERROR response
with no request id; on success dispatch only when the type ends in
"REQUEST", otherwise log and drop. -/
def HandleAction (reg : List ReqAction) (parse : List Nat → Except String Action)
    (data : List Nat) : List DEv :=
  match parse data with
  | .error err =>
    [DEv.sent { Typ := "PARSE_ERROR", Error := "action parsing error type: " ++ err }]
  | .ok action =>
    if hasSuffix action.Typ "REQUEST" then
      HandleRequestAction reg action.Typ action.RequestId action.SilentError action.Data
    else
      []

/-- One iteration of `Client.readPump`'s loop: a failed read closes the
connection and stops the pump; a successful read is handed to
`Client.HandleAction` and the connection stays open. -/
def readPumpStep (reg : List ReqAction) (parse : List Nat → Except String Action)
    (read : Except String (List Nat)) : List DEv :=
  match read with
  | .error _ => [DEv.closedConn]
  | .ok msg => HandleAction reg parse msg

/-! ## Crawl orchestrator (archive source file) -/

/-- ASCII lowering of one character, modelling the case folding of the
SQL `ilike` comparison. -/
def asciiLowerChar (c : Char) : Char :=
  if 65 ≤ c.toNat ∧ c.toNat ≤ 90 then Char.ofNat (c.toNat + 32) else c

def asciiLower (l : List Char) : List Char :=
  l.map asciiLowerChar

/-- Substring containment on character lists. -/
def containsSeq (pat : List Char) : List Char → Bool
  | [] => pat.isEmpty
  | c :: rest => leadsWith pat (c :: rest) || containsSeq pat rest

/-- Model of `ValidArchivingUrl`: the SQL query
`exists(select 1 from subprimers where $1 ilike concat('%', url ,'%'))`
holds exactly when some subprimer row's url is a case-insensitive
substring of the requested url. `subprimers` is the query outcome: the
row set, or a database error which is returned as-is. -/
def ValidArchivingUrl (subprimers : Except String (List String)) (url : String) :
    Except String Unit :=
  match subprimers with
  | .error e => .error e
  | .ok rows =>
    if rows.any (fun p => containsSeq (asciiLower p.data) (asciiLower url.data)) then .ok ()
    else
      .error ("Oops! Only urls contained in subprimers can be archived. cannot archive "
        ++ url)

/-- External collaborators of `Client.ArchiveUrl` and the batch
`ArchiveUrl`: the subprimers query, the audit insert, URL parsing, and the
content store's Read/Save/Get. `getUrl` returns the outbound links; its
non-error first result is discarded by every caller in scope. -/
inductive ReadErr where
  | notFound
  | other (msg : String)

structure CrawlEnv where
  subprimers : Except String (List String)
  insertArchiveReq : Except String Unit
  parsedUrl : String → Except String Unit
  readUrl : String → Except ReadErr Url
  saveUrl : String → Except String Unit
  getUrl : String → Except String (List Link)

/-- Observable effects of a crawl: responses enqueued, the audit insert
attempt, content-store reads/saves, fetches, and throttling sleeps. -/
inductive CEv where
  | sent (r : ClientResponse)
  | auditInsertAttempt (url : String)
  | entityReadAttempt (url : String)
  | entitySaved (u : Url)
  | fetched (url : String)
  | slept (secs : Int)

/-- Modelled from the spec: `FetchOutboundLinksAct{}.SuccessType()` is the
reserved link-array broadcast type; its literal value is declared outside
the files in scope. -/
def fetchOutboundLinksSuccessType : String := "URL_FETCH_OUTBOUND_LINKS_SUCCESS"

/-- The goroutine at the end of `Client.ArchiveUrl` (throttled variant):
strictly sequential over the links; sleep 3 seconds, send URL_SET_LOADING,
fetch the destination; on error send URL_SET_ERROR; then send
URL_SET_SUCCESS unconditionally and move to the next link. -/
def loadingResp (dst : String) : ClientResponse :=
  { Typ := "URL_SET_LOADING", RequestId := "server", Data := .obj [("url", .str dst), ("loading", .boolean true)] }

def setErrorResp (dst e : String) : ClientResponse :=
  { Typ := "URL_SET_ERROR", RequestId := "server", Data := .obj [("url", .str dst), ("error", .str e)] }

def setSuccessResp (dst : String) : ClientResponse :=
  { Typ := "URL_SET_SUCCESS", RequestId := "server", Data := .obj [("url", .str dst), ("success", .boolean true)] }

def archiveErrResp (reqId err : String) : ClientResponse :=
  { Typ := "URL_ARCHIVE_ERROR", RequestId := reqId, Error := err }

def throttledLinks (env : CrawlEnv) : List Link → List CEv
  | [] => []
  | l :: rest =>
    CEv.slept 3 ::
    CEv.sent (loadingResp l.Dst.Url) ::
    CEv.fetched l.Dst.Url ::
    ((match env.getUrl l.Dst.Url with
      | .error e => [CEv.sent (setErrorResp l.Dst.Url e)]
      | .ok _ => []) ++
     CEv.sent (setSuccessResp l.Dst.Url) ::
     throttledLinks env rest)

/-- The tail of `Client.ArchiveUrl` once an entity is in hand: announce
URL_ARCHIVE_SUCCESS, perform the base GET, announce the link array, and
hand the links to the throttled goroutine. -/
def archiveFetchPhase (env : CrawlEnv) (reqId url : String) (entity : Url) : List CEv :=
  CEv.sent { Typ := "URL_ARCHIVE_SUCCESS", RequestId := reqId, Schema := "URL", Data := .url entity } ::
  CEv.fetched url ::
  match env.getUrl url with
  | .error e => [CEv.sent (archiveErrResp reqId e)]
  | .ok links =>
    CEv.sent { Typ := fetchOutboundLinksSuccessType, RequestId := "server", Schema := "LINK_ARRAY", Data := .links links } ::
    throttledLinks env links

/-- Model of `Client.ArchiveUrl`: policy check (verbatim error on failure, then
stop), audit insert, URL parse, entity resolve (placeholder save on
not-found; "internal server error" on other failures), then the fetch
phase. -/
def ArchiveUrlClient (env : CrawlEnv) (reqId url : String) : List CEv :=
  match ValidArchivingUrl env.subprimers url with
  | .error e => [CEv.sent (archiveErrResp reqId e)]
  | .ok _ =>
    CEv.auditInsertAttempt url ::
    match env.insertArchiveReq with
    | .error e => [CEv.sent (archiveErrResp reqId e)]
    | .ok _ =>
      match env.parsedUrl url with
      | .error e => [CEv.sent (archiveErrResp reqId ("url parse error: " ++ e))]
      | .ok _ =>
        CEv.entityReadAttempt url ::
        match env.readUrl url with
        | .error .notFound =>
          (match env.saveUrl url with
           | .error _ => [CEv.sent (archiveErrResp reqId "internal server error")]
           | .ok _ =>
             CEv.entitySaved ⟨url, "", ""⟩ ::
             archiveFetchPhase env reqId url ⟨url, "", ""⟩)
        | .error (.other _) => [CEv.sent (archiveErrResp reqId "internal server error")]
        | .ok u =>
          archiveFetchPhase env reqId url u

/-! ## Batch crawl variant (the standalone `ArchiveUrl` function) -/

/-- Observable effects of the batch variant: fetches, logged per-link
errors, sleeps, and invocations of the `done` completion callback. -/
inductive BEv where
  | fetched (url : String)
  | logged (msg : String)
  | slept (secs : Int)
  | doneCalled (err : Option String)

def isDoneEv : BEv → Bool
  | .doneCalled _ => true
  | _ => false

/-- The fan-out goroutine of the batch `ArchiveUrl`: fetch every link's
destination, log any error, and push `nil` onto the `errs` channel for
every link regardless of the fetch's outcome. Returns the emitted events
and the sequence of completions sent on the channel. -/
def batchLinkLoop (env : CrawlEnv) : List Link → List BEv × List (Option String)
  | [] => ([], [])
  | l :: rest =>
    let here :=
      BEv.fetched l.Dst.Url ::
      ((match env.getUrl l.Dst.Url with
        | .error e => [BEv.logged e]
        | .ok _ => []) ++ [BEv.slept 3])
    let tail := batchLinkLoop env rest
    (here ++ tail.1, none :: tail.2)

/-- The aggregator goroutine of the batch `ArchiveUrl`: receive one
completion per task; a non-nil completion triggers `done(err)` and stops;
after all tasks completed, `done(nil)` is invoked. -/
def batchAggregator : List (Option String) → List BEv
  | [] => [BEv.doneCalled none]
  | c :: rest =>
    match c with
    | some e => [BEv.doneCalled (some e)]
    | none => batchAggregator rest

/-- The tail of the batch `ArchiveUrl` after the primary GET succeeded:
run the fan-out loop and then the aggregator over its completions. -/
def batchFetchPhase (env : CrawlEnv) (links : List Link) : List BEv :=
  let t := batchLinkLoop env links
  t.1 ++ batchAggregator t.2

/-- The standalone batch `ArchiveUrl`: parse the URL, resolve the entity
(placeholder save on not-found), perform the base GET — each failure
invokes `done(err)` and returns — then fan out the per-link fetches and
aggregate their completions. -/
def ArchiveUrlBatch (env : CrawlEnv) (url : String) : List BEv :=
  match env.parsedUrl url with
  | .error e => [BEv.doneCalled (some e)]
  | .ok _ =>
    match env.readUrl url with
    | .error .notFound =>
      (match env.saveUrl url with
       | .error e => [BEv.doneCalled (some e)]
       | .ok _ =>
         match env.getUrl url with
         | .error e => [BEv.doneCalled (some e)]
         | .ok links => batchFetchPhase env links)
    | .error (.other e) => [BEv.doneCalled (some e)]
    | .ok _ =>
      match env.getUrl url with
      | .error e => [BEv.doneCalled (some e)]
      | .ok links => batchFetchPhase env links

/-! ## Concrete instances used by witnesses and counterexamples -/

/-- A trivial hashing environment: marshalling returns the empty byte
string, sha256 is the identity, the multihash encoder echoes its input. -/
def envId : HashEnv where
  jsonMarshalHashable := fun _ => .ok []
  jsonMarshalMeta := fun _ => .ok []
  sha256 := fun d => d
  multihashEncodeName := fun d _ => .ok d

def insOk : InsertRow → Except String Unit := fun _ => .ok ()

def insFail : InsertRow → Except String Unit := fun _ => .error "db down"

def mEmpty : Metadata := ⟨"", goZeroTime, "k", "s", "", []⟩

def mTitled : Metadata := ⟨"", goZeroTime, "k", "s", "", [("title", .str "T")]⟩

/-! ## Claims about the metadata ledger -/

/-- C1: every record persisted by `Write` carries a `Hash` equal to the
hasher's output (sha2-256 multihash, hex encoded, i.e. `CalcHash`) over
the canonical serialization (`HashableBytes`) of exactly the five fields
{timestamp, keyId, subject, prev, meta} of the written record; the `Hash`
field itself is never part of the hashed input. -/
theorem write_hash_invariant (env : HashEnv) (insertMD : InsertRow → Except String Unit)
    (now : GoTime) (m0 : Metadata) (data : List Nat) (mh : List Nat)
    (hbytes : Metadata.HashableBytes env { m0 with Timestamp := timeRound now nsPerSec } = .ok data)
    (hmh : env.multihashEncodeName (env.sha256 data) "sha2-256" = .ok mh) :
    CalcHash env data = .ok (Metadata.Write env insertMD now m0).record.Hash ∧
    Metadata.HashableBytes env (Metadata.Write env insertMD now m0).record = .ok data ∧
    (∀ h, Metadata.HashableBytes env { (Metadata.Write env insertMD now m0).record with Hash := h } =
      Metadata.HashableBytes env (Metadata.Write env insertMD now m0).record) ∧
    (∀ row, WEv.inserted row ∈ (Metadata.Write env insertMD now m0).events →
      row.hash = (Metadata.Write env insertMD now m0).record.Hash) := by
  have hbytes2 : env.jsonMarshalHashable ⟨timeRound now nsPerSec, m0.KeyId, m0.Subject, m0.Prev, m0.Meta⟩ = .ok data := by
    simpa [Metadata.HashableBytes] using hbytes
  rcases hmeta : env.jsonMarshalMeta m0.Meta with e | metaBytes
  · simp [Metadata.Write, Metadata.calcHash, Metadata.HashableBytes, CalcHash, hbytes2, hmh, hmeta]
  · rcases htitle : metaTitle m0.Meta with _ | s
    · simp [Metadata.Write, Metadata.calcHash, Metadata.HashableBytes, CalcHash, hbytes2, hmh, hmeta, htitle]
    · by_cases hs : s = "" <;>
        simp [Metadata.Write, Metadata.calcHash, Metadata.HashableBytes, CalcHash, hbytes2, hmh, hmeta, htitle, hs]

/-- Witness for C1 at a concrete input. -/
theorem write_hash_invariant_witness :
    (Metadata.HashableBytes envId { mEmpty with Timestamp := timeRound goZeroTime nsPerSec } = .ok []) ∧
    (envId.multihashEncodeName (envId.sha256 []) "sha2-256" = .ok []) ∧
    (CalcHash envId [] = .ok (Metadata.Write envId insOk goZeroTime mEmpty).record.Hash ∧
     Metadata.HashableBytes envId (Metadata.Write envId insOk goZeroTime mEmpty).record = .ok [] ∧
     (∀ h, Metadata.HashableBytes envId { (Metadata.Write envId insOk goZeroTime mEmpty).record with Hash := h } =
       Metadata.HashableBytes envId (Metadata.Write envId insOk goZeroTime mEmpty).record) ∧
     (∀ row, WEv.inserted row ∈ (Metadata.Write envId insOk goZeroTime mEmpty).events →
       row.hash = (Metadata.Write envId insOk goZeroTime mEmpty).record.Hash)) :=
  ⟨rfl, rfl, write_hash_invariant envId insOk goZeroTime mEmpty [] [] rfl rfl⟩

/-- C2: `NextMetadata` returns, on the distinguished not-found condition,
a fresh record with the given keyId and subject, empty `Prev` and empty
payload; on an existing head `H` a record carrying `H`'s keyId, subject
and meta with `Prev = H.Hash`; and any other lookup error unchanged with
no record. -/
theorem nextMetadata_chain_construction (latest : String → String → Except DbErr Metadata)
    (keyId subject : String) :
    (latest keyId subject = .error .notFound →
      NextMetadata latest keyId subject = .ok ⟨"", goZeroTime, keyId, subject, "", []⟩) ∧
    (∀ H, latest keyId subject = .ok H →
      NextMetadata latest keyId subject = .ok ⟨"", goZeroTime, H.KeyId, H.Subject, H.Hash, H.Meta⟩) ∧
    (∀ msg, latest keyId subject = .error (.other msg) →
      NextMetadata latest keyId subject = .error (.other msg)) := by
  refine ⟨fun h => ?_, fun H h => ?_, fun msg h => ?_⟩ <;> simp [NextMetadata, h]

/-- Witness for C2: all three branches exercised on concrete lookups. -/
theorem nextMetadata_chain_construction_witness :
    NextMetadata (fun _ _ => .error .notFound) "k" "s" = .ok ⟨"", goZeroTime, "k", "s", "", []⟩ ∧
    NextMetadata (fun _ _ => .ok mTitled) "k" "s" =
      .ok ⟨"", goZeroTime, mTitled.KeyId, mTitled.Subject, mTitled.Hash, mTitled.Meta⟩ ∧
    NextMetadata (fun _ _ => .error (.other "boom")) "k" "s" = .error (.other "boom") :=
  ⟨(nextMetadata_chain_construction (fun _ _ => .error .notFound) "k" "s").1 rfl,
   (nextMetadata_chain_construction (fun _ _ => .ok mTitled) "k" "s").2.1 mTitled rfl,
   (nextMetadata_chain_construction (fun _ _ => .error (.other "boom")) "k" "s").2.2 "boom" rfl⟩

/-- Modelled from the spec: "stamps the record's timestamp to now
truncated to one-second resolution in UTC" — truncation drops the
sub-second remainder and the resulting value is expressed in UTC. -/
def specTruncUTCStamp (now : GoTime) : GoTime :=
  { nanos := now.nanos - now.nanos % nsPerSec, offset := 0 }

/-- C3, counterexample: at `now` = 1.5 s past the epoch in a zone one hour
east of UTC, `Write` stamps the timestamp to `time.Now().Round(time.Second)`
— 2 s, still in the local zone — whereas the claim's truncated UTC value
is 1 s at offset 0; the value entering the hash is the former. -/
theorem write_timestamp_not_truncated_utc :
    (Metadata.Write envId insOk ⟨1500000000, 3600⟩ mEmpty).record.Timestamp ≠
      specTruncUTCStamp ⟨1500000000, 3600⟩ := by
  decide

/-- C3, amended: `Write` stamps the record's timestamp to the current time
rounded (Go `time.Round`, to the nearest second) with the clock's zone
offset retained, and this rounded local-zone value is the timestamp that
enters the hashed canonical serialization; only the persisted column value
is converted to UTC (and rounded again). -/
theorem write_timestamp_rounded_local (env : HashEnv) (insertMD : InsertRow → Except String Unit)
    (now : GoTime) (m0 : Metadata) :
    (Metadata.Write env insertMD now m0).record.Timestamp = timeRound now nsPerSec ∧
    (Metadata.Write env insertMD now m0).record.Timestamp.offset = now.offset ∧
    Metadata.HashableBytes env (Metadata.Write env insertMD now m0).record =
      env.jsonMarshalHashable ⟨timeRound now nsPerSec, m0.KeyId, m0.Subject, m0.Prev, m0.Meta⟩ ∧
    (∀ row, WEv.inserted row ∈ (Metadata.Write env insertMD now m0).events →
      row.time_stamp = timeRound (timeInUTC (timeRound now nsPerSec)) nsPerSec) := by
  have hoff : (timeRound now nsPerSec).offset = now.offset := by
    simp only [timeRound]
    split <;> rfl
  rcases hbytes : env.jsonMarshalHashable ⟨timeRound now nsPerSec, m0.KeyId, m0.Subject, m0.Prev, m0.Meta⟩ with e | data
  · simp [Metadata.Write, Metadata.calcHash, Metadata.HashableBytes, hbytes, hoff]
  · rcases hmh : env.multihashEncodeName (env.sha256 data) "sha2-256" with e | mh
    · simp [Metadata.Write, Metadata.calcHash, Metadata.HashableBytes, hbytes, hmh, hoff]
    · rcases hmeta : env.jsonMarshalMeta m0.Meta with e | metaBytes
      · simp [Metadata.Write, Metadata.calcHash, Metadata.HashableBytes, hbytes, hmh, hmeta, hoff]
      · rcases htitle : metaTitle m0.Meta with _ | s
        · simp [Metadata.Write, Metadata.calcHash, Metadata.HashableBytes, hbytes, hmh, hmeta, htitle, hoff]
        · by_cases hs : s = "" <;>
            simp [Metadata.Write, Metadata.calcHash, Metadata.HashableBytes, hbytes, hmh, hmeta, htitle, hs, hoff]

/-- Witness for the amended C3 at a concrete input, an instant 1.5 s past
the epoch in a zone one hour east of UTC. -/
theorem write_timestamp_rounded_local_witness :
    (Metadata.Write envId insOk ⟨1500000000, 3600⟩ mEmpty).record.Timestamp =
      timeRound ⟨1500000000, 3600⟩ nsPerSec ∧
    (Metadata.Write envId insOk ⟨1500000000, 3600⟩ mEmpty).record.Timestamp.offset =
      (⟨1500000000, 3600⟩ : GoTime).offset ∧
    Metadata.HashableBytes envId (Metadata.Write envId insOk ⟨1500000000, 3600⟩ mEmpty).record =
      envId.jsonMarshalHashable ⟨timeRound ⟨1500000000, 3600⟩ nsPerSec, mEmpty.KeyId, mEmpty.Subject, mEmpty.Prev, mEmpty.Meta⟩ ∧
    (∀ row, WEv.inserted row ∈ (Metadata.Write envId insOk ⟨1500000000, 3600⟩ mEmpty).events →
      row.time_stamp = timeRound (timeInUTC (timeRound ⟨1500000000, 3600⟩ nsPerSec)) nsPerSec) :=
  write_timestamp_rounded_local envId insOk ⟨1500000000, 3600⟩ mEmpty

/-- C10: whenever the payload holds a non-empty string "title" (and the
hash pipeline succeeds), `Write` spawns the asynchronous title projection
onto the subject entity unconditionally — `insertMD` is arbitrary, so the
spawn happens even when the ledger insert fails — and `Write`'s return
value is exactly the insert's result, unaffected by the projection. -/
theorem write_title_projection_unconditional (env : HashEnv)
    (insertMD : InsertRow → Except String Unit) (now : GoTime) (m0 : Metadata)
    (data mh metaBytes : List Nat) (s : String)
    (hbytes : Metadata.HashableBytes env { m0 with Timestamp := timeRound now nsPerSec } = .ok data)
    (hmh : env.multihashEncodeName (env.sha256 data) "sha2-256" = .ok mh)
    (hmeta : env.jsonMarshalMeta m0.Meta = .ok metaBytes)
    (htitle : metaTitle m0.Meta = some s) (hs : s ≠ "") :
    (Metadata.Write env insertMD now m0).events =
      [WEv.inserted ⟨hexEncodeToString mh, timeRound (timeInUTC (timeRound now nsPerSec)) nsPerSec,
        m0.KeyId, m0.Subject, m0.Prev, metaBytes⟩,
       WEv.spawnedTitleProjection m0.Subject s] ∧
    (Metadata.Write env insertMD now m0).ret =
      insertMD ⟨hexEncodeToString mh, timeRound (timeInUTC (timeRound now nsPerSec)) nsPerSec,
        m0.KeyId, m0.Subject, m0.Prev, metaBytes⟩ := by
  simp [Metadata.Write, Metadata.calcHash, hbytes, hmh, hmeta, htitle, hs]

/-- Witness for C10 at a concrete input whose insert fails: the
projection is still spawned and the failure is returned as-is. -/
theorem write_title_projection_unconditional_witness :
    (Metadata.HashableBytes envId { mTitled with Timestamp := timeRound goZeroTime nsPerSec } = .ok []) ∧
    (envId.multihashEncodeName (envId.sha256 []) "sha2-256" = .ok []) ∧
    (envId.jsonMarshalMeta mTitled.Meta = .ok []) ∧
    (metaTitle mTitled.Meta = some "T") ∧ ("T" ≠ "") ∧
    ((Metadata.Write envId insFail goZeroTime mTitled).events =
      [WEv.inserted ⟨hexEncodeToString [], timeRound (timeInUTC (timeRound goZeroTime nsPerSec)) nsPerSec,
        mTitled.KeyId, mTitled.Subject, mTitled.Prev, []⟩,
       WEv.spawnedTitleProjection mTitled.Subject "T"] ∧
     (Metadata.Write envId insFail goZeroTime mTitled).ret =
      insFail ⟨hexEncodeToString [], timeRound (timeInUTC (timeRound goZeroTime nsPerSec)) nsPerSec,
        mTitled.KeyId, mTitled.Subject, mTitled.Prev, []⟩) :=
  ⟨rfl, rfl, rfl, rfl, by decide,
   write_title_projection_unconditional envId insFail goZeroTime mTitled [] [] [] "T" rfl rfl rfl rfl (by decide)⟩

/-! ## Claims about the dispatch path -/

/-- A parse outcome that always fails, for witnesses. -/
def parseFailW : List Nat → Except String Action :=
  fun _ => .error "unexpected end of JSON input"

/-- A parse outcome returning a non-REQUEST envelope, for witnesses. -/
def parsePingW : List Nat → Except String Action :=
  fun _ => .ok ⟨"PING", "r0", false, []⟩

/-- A two-entries-same-type registry, for witnesses. -/
def regW : List ReqAction :=
  [⟨"FOO_REQUEST", fun rid _ => { Typ := "FOO_SUCCESS", RequestId := rid }⟩,
   ⟨"FOO_REQUEST", fun _ _ => { Typ := "FOO_SUCCESS_B" }⟩,
   ⟨"BAR_REQUEST", fun _ _ => { Typ := "BAR_SUCCESS" }⟩]

/-- A parse outcome returning a FOO_REQUEST envelope asserting
silentError, for witnesses. -/
def parseFooW : List Nat → Except String Action :=
  fun _ => .ok ⟨"FOO_REQUEST", "r1", true, [7]⟩

/-- C4: an inbound message whose bytes fail envelope parsing produces
exactly one enqueued response, of type PARSE_ERROR, carrying the parse
failure description in `Error` and no requestId correlation; no handler
runs and the connection is not closed. -/
theorem handleAction_parse_error (reg : List ReqAction)
    (parse : List Nat → Except String Action) (data : List Nat) (err : String)
    (hp : parse data = .error err) :
    readPumpStep reg parse (.ok data) =
      [DEv.sent { Typ := "PARSE_ERROR", RequestId := "", Error := "action parsing error type: " ++ err, Schema := "", Data := .nothing, SilentError := false }] ∧
    DEv.closedConn ∉ readPumpStep reg parse (.ok data) ∧
    (∀ t, DEv.executed t ∉ readPumpStep reg parse (.ok data)) := by
  simp [readPumpStep, HandleAction, hp]

/-- Witness for C4 at a concrete failing parse. -/
theorem handleAction_parse_error_witness :
    parseFailW [1] = .error "unexpected end of JSON input" ∧
    (readPumpStep regW parseFailW (.ok [1]) =
      [DEv.sent { Typ := "PARSE_ERROR", RequestId := "", Error := "action parsing error type: " ++ "unexpected end of JSON input", Schema := "", Data := .nothing, SilentError := false }] ∧
     DEv.closedConn ∉ readPumpStep regW parseFailW (.ok [1]) ∧
     (∀ t, DEv.executed t ∉ readPumpStep regW parseFailW (.ok [1]))) :=
  ⟨rfl, handleAction_parse_error regW parseFailW [1] "unexpected end of JSON input" rfl⟩

/-- C5: a successfully parsed envelope whose type does not end in
"REQUEST" triggers no handler and enqueues no response: the dispatch step
produces no observable event. -/
theorem handleAction_non_request_dropped (reg : List ReqAction)
    (parse : List Nat → Except String Action) (data : List Nat) (a : Action)
    (hp : parse data = .ok a) (hsuf : hasSuffix a.Typ "REQUEST" = false) :
    readPumpStep reg parse (.ok data) = [] ∧
    (∀ t, DEv.executed t ∉ readPumpStep reg parse (.ok data)) ∧
    (∀ r, DEv.sent r ∉ readPumpStep reg parse (.ok data)) := by
  simp [readPumpStep, HandleAction, hp, hsuf]

/-- Witness for C5 on a "PING" envelope. -/
theorem handleAction_non_request_dropped_witness :
    parsePingW [1] = .ok ⟨"PING", "r0", false, []⟩ ∧
    hasSuffix "PING" "REQUEST" = false ∧
    (readPumpStep regW parsePingW (.ok [1]) = [] ∧
     (∀ t, DEv.executed t ∉ readPumpStep regW parsePingW (.ok [1])) ∧
     (∀ r, DEv.sent r ∉ readPumpStep regW parsePingW (.ok [1]))) :=
  ⟨rfl, by decide,
   handleAction_non_request_dropped regW parsePingW [1] ⟨"PING", "r0", false, []⟩ rfl (by decide)⟩

/-- Helper: `HandleRequestAction` visits the whole registry and emits one
execution plus one enqueued response per matching entry, in registry
order. -/
theorem handleRequestAction_filter_bind (reg : List ReqAction) (req reqId : String)
    (silent : Bool) (data : List Nat) :
    HandleRequestAction reg req reqId silent data =
      (reg.filter (fun t => t.typeName == req)).bind
        (fun t => [DEv.executed t.typeName, DEv.sent (setSilent (t.run reqId data) silent)]) := by
  induction reg with
  | nil => rfl
  | cons t ts ih =>
    cases h : t.typeName == req <;> simp [HandleRequestAction, h, ih]

/-- C9: for a dispatched request envelope, every registry entry whose type
name equals the envelope's type executes and enqueues its own response
with `SilentError` overwritten from the envelope — entries sharing a type
name all run, with no first-match-wins short-circuit. -/
theorem handleAction_dispatch_all_matching (reg : List ReqAction)
    (parse : List Nat → Except String Action) (data : List Nat) (a : Action)
    (hp : parse data = .ok a) (hsuf : hasSuffix a.Typ "REQUEST" = true) :
    readPumpStep reg parse (.ok data) =
      (reg.filter (fun t => t.typeName == a.Typ)).bind
        (fun t => [DEv.executed t.typeName, DEv.sent (setSilent (t.run a.RequestId a.Data) a.SilentError)]) := by
  simp [readPumpStep, HandleAction, hp, hsuf, handleRequestAction_filter_bind]

/-- Witness for C9: two entries claim FOO_REQUEST and both execute, each
enqueueing its own response with the envelope's silentError. -/
theorem handleAction_dispatch_all_matching_witness :
    parseFooW [9] = .ok ⟨"FOO_REQUEST", "r1", true, [7]⟩ ∧
    hasSuffix "FOO_REQUEST" "REQUEST" = true ∧
    readPumpStep regW parseFooW (.ok [9]) =
      (regW.filter (fun t => t.typeName == "FOO_REQUEST")).bind
        (fun t => [DEv.executed t.typeName, DEv.sent (setSilent (t.run "r1" [7]) true)]) :=
  ⟨rfl, by decide,
   handleAction_dispatch_all_matching regW parseFooW [9] ⟨"FOO_REQUEST", "r1", true, [7]⟩ rfl (by decide)⟩

/-! ## Claims about the crawl orchestrator -/

/-- C6: an archive request whose URL matches no allow-listed subprimer
pattern terminates at the policy check with exactly one URL_ARCHIVE_ERROR
response carrying the policy failure message verbatim; no audit insert is
attempted, no entity is read or saved, and no fetch happens. -/
theorem archiveUrlClient_policy_reject (env : CrawlEnv) (reqId url : String)
    (rows : List String) (hq : env.subprimers = .ok rows)
    (hnone : rows.any (fun p => containsSeq (asciiLower p.data) (asciiLower url.data)) = false) :
    ArchiveUrlClient env reqId url =
      [CEv.sent { Typ := "URL_ARCHIVE_ERROR", RequestId := reqId, Error := "Oops! Only urls contained in subprimers can be archived. cannot archive " ++ url, Schema := "", Data := .nothing, SilentError := false }] ∧
    (∀ u, CEv.auditInsertAttempt u ∉ ArchiveUrlClient env reqId url) ∧
    (∀ u, CEv.entityReadAttempt u ∉ ArchiveUrlClient env reqId url) ∧
    (∀ u, CEv.entitySaved u ∉ ArchiveUrlClient env reqId url) ∧
    (∀ u, CEv.fetched u ∉ ArchiveUrlClient env reqId url) := by
  simp [ArchiveUrlClient, ValidArchivingUrl, hq, hnone, archiveErrResp]

/-- A crawl environment whose allow-list holds only "example.com", for
witnesses. -/
def crawlEnvW : CrawlEnv where
  subprimers := .ok ["example.com"]
  insertArchiveReq := .ok ()
  parsedUrl := fun _ => .ok ()
  readUrl := fun u => .ok ⟨u, "", ""⟩
  saveUrl := fun _ => .ok ()
  getUrl := fun _ => .ok []

/-- Witness for C6: "http://evil.test/x" matches no allow-listed pattern
and is rejected at the policy stage with no side effects. -/
theorem archiveUrlClient_policy_reject_witness :
    crawlEnvW.subprimers = .ok ["example.com"] ∧
    (["example.com"].any (fun p => containsSeq (asciiLower p.data) (asciiLower ("http://evil.test/x").data)) = false) ∧
    (ArchiveUrlClient crawlEnvW "r1" "http://evil.test/x" =
      [CEv.sent { Typ := "URL_ARCHIVE_ERROR", RequestId := "r1", Error := "Oops! Only urls contained in subprimers can be archived. cannot archive " ++ "http://evil.test/x", Schema := "", Data := .nothing, SilentError := false }] ∧
     (∀ u, CEv.auditInsertAttempt u ∉ ArchiveUrlClient crawlEnvW "r1" "http://evil.test/x") ∧
     (∀ u, CEv.entityReadAttempt u ∉ ArchiveUrlClient crawlEnvW "r1" "http://evil.test/x") ∧
     (∀ u, CEv.entitySaved u ∉ ArchiveUrlClient crawlEnvW "r1" "http://evil.test/x") ∧
     (∀ u, CEv.fetched u ∉ ArchiveUrlClient crawlEnvW "r1" "http://evil.test/x")) :=
  ⟨rfl, by decide,
   archiveUrlClient_policy_reject crawlEnvW "r1" "http://evil.test/x" ["example.com"] rfl (by decide)⟩

/-- The failing and succeeding links of the C7 failing input. -/
def linkFailW : Link := ⟨⟨"http://example.com/a", "", ""⟩⟩

def linkOkW : Link := ⟨⟨"http://example.com/b", "", ""⟩⟩

/-- A crawl environment in which only the fetch of "http://example.com/a"
fails. -/
def envMixedW : CrawlEnv where
  subprimers := .ok ["example.com"]
  insertArchiveReq := .ok ()
  parsedUrl := fun _ => .ok ()
  readUrl := fun u => .ok ⟨u, "", ""⟩
  saveUrl := fun _ => .ok ()
  getUrl := fun u =>
    if u == "http://example.com/a" then .error "fetch failed" else .ok []

/-- C7, failing input: the throttled loop over [a, b], where fetching `a`
fails and fetching `b` succeeds, does process the links sequentially with
a sleep and a loading event before each fetch, and the failure of `a`
does not abort `b` — but the failed link `a` receives a URL_SET_ERROR
event and then, because the loop sends success unconditionally, also a
URL_SET_SUCCESS event: two terminal events where the claim requires
exactly one. -/
theorem throttled_failed_link_gets_error_then_success :
    throttledLinks envMixedW [linkFailW, linkOkW] =
      [CEv.slept 3,
       CEv.sent (loadingResp "http://example.com/a"),
       CEv.fetched "http://example.com/a",
       CEv.sent (setErrorResp "http://example.com/a" "fetch failed"),
       CEv.sent (setSuccessResp "http://example.com/a"),
       CEv.slept 3,
       CEv.sent (loadingResp "http://example.com/b"),
       CEv.fetched "http://example.com/b",
       CEv.sent (setSuccessResp "http://example.com/b")] := rfl

/-! ## Claims about the batch crawl variant -/

/-- Helper: the fan-out loop reports every completion as `none`. -/
theorem batchLinkLoop_completions (env : CrawlEnv) (links : List Link) :
    (batchLinkLoop env links).2 = links.map (fun _ => none) := by
  induction links with
  | nil => rfl
  | cons l rest ih => simp [batchLinkLoop, ih]

/-- Helper: the fan-out loop itself never invokes the completion
callback. -/
theorem batchLinkLoop_no_done (env : CrawlEnv) (links : List Link) :
    (batchLinkLoop env links).1.filter isDoneEv = [] := by
  induction links with
  | nil => rfl
  | cons l rest ih =>
    cases hget : env.getUrl l.Dst.Url <;> simp [batchLinkLoop, hget, isDoneEv, ih]

/-- Helper: draining a list of `none` completions ends in `done(nil)`. -/
theorem batchAggregator_map_none {α : Type} (l : List α) :
    batchAggregator (l.map (fun _ => none)) = [BEv.doneCalled none] := by
  induction l with
  | nil => rfl
  | cons x rest ih => simpa [batchAggregator] using ih

/-- C8: once the primary stages of the batch `ArchiveUrl` succeed, every
per-link fetch outcome is reported to the aggregator as no error, the
aggregator drains exactly one completion per link, and the completion
callback is invoked exactly once, with nil, regardless of per-link fetch
failures. -/
theorem archiveUrlBatch_done_once_nil (env : CrawlEnv) (url : String) (links : List Link)
    (hparse : env.parsedUrl url = .ok ())
    (hresolve : (∃ u, env.readUrl url = .ok u) ∨
      (env.readUrl url = .error .notFound ∧ env.saveUrl url = .ok ()))
    (hget : env.getUrl url = .ok links) :
    (batchLinkLoop env links).2 = links.map (fun _ => none) ∧
    (batchLinkLoop env links).2.length = links.length ∧
    (ArchiveUrlBatch env url).filter isDoneEv = [BEv.doneCalled none] := by
  have hcomp := batchLinkLoop_completions env links
  have hphase : (batchFetchPhase env links).filter isDoneEv = [BEv.doneCalled none] := by
    have hagg : batchAggregator ((batchLinkLoop env links).2) = [BEv.doneCalled none] := by
      rw [hcomp]
      exact batchAggregator_map_none links
    simp [batchFetchPhase, List.filter_append, batchLinkLoop_no_done, hagg, isDoneEv]
  refine ⟨hcomp, by simp [hcomp], ?_⟩
  rcases hresolve with ⟨u, hread⟩ | ⟨hread, hsave⟩ <;>
    simp [ArchiveUrlBatch, hparse, hread, hget, hphase] <;>
    simp [hsave, hget, hphase]

/-- The single outbound link of the C8 witness environment. -/
def linkA : Link := ⟨⟨"http://example.com/a", "", ""⟩⟩

/-- A batch environment whose only per-link fetch fails while the primary
fetch succeeds, for the C8 witness. -/
def batchEnvW : CrawlEnv where
  subprimers := .ok ["example.com"]
  insertArchiveReq := .ok ()
  parsedUrl := fun _ => .ok ()
  readUrl := fun u => .ok ⟨u, "", ""⟩
  saveUrl := fun _ => .ok ()
  getUrl := fun u =>
    if u == "http://example.com/" then .ok [linkA]
    else .error "boom"

/-- Witness for C8: the single link's fetch fails, yet `done` is invoked
exactly once with nil. -/
theorem archiveUrlBatch_done_once_nil_witness :
    batchEnvW.parsedUrl "http://example.com/" = .ok () ∧
    (∃ u, batchEnvW.readUrl "http://example.com/" = .ok u) ∧
    batchEnvW.getUrl "http://example.com/" = .ok [linkA] ∧
    ((batchLinkLoop batchEnvW [linkA]).2 = [linkA].map (fun _ => none) ∧
     (batchLinkLoop batchEnvW [linkA]).2.length = [linkA].length ∧
     (ArchiveUrlBatch batchEnvW "http://example.com/").filter isDoneEv = [BEv.doneCalled none]) :=
  ⟨rfl, Exists.intro (⟨"http://example.com/", "", ""⟩ : Url) rfl, rfl,
   archiveUrlBatch_done_once_nil batchEnvW "http://example.com/" [linkA]
     rfl (Or.inl (Exists.intro (⟨"http://example.com/", "", ""⟩ : Url) rfl)) rfl⟩

end Patchbay
